import Mathlib

/-!
Verification of the aura-agent API interceptor
(src/scripts/api_interceptor.py) against its specification.

The Python program is shallowly embedded: each Python function used by a
claim becomes a Lean definition with the same name where possible.  Python
strings are Lean `String`s; Python's `in` on strings is the substring test
`substrIn`; Python dicts that the program builds are association lists whose
keys the program never duplicates.  Behavior of Python standard-library
helpers (`str.lower`, `urlparse`, `json`) is modelled by Lean functions that
agree with them on the inputs this program feeds them, as noted at each
definition.
-/

namespace AuraAgent

/-- Model of Python `str.lower` (ASCII range, which is what `Char.toLower`
lowercases; the program only ever lowercases URL paths). -/
def lowerStr (s : String) : String := String.mk (s.data.map Char.toLower)

/-- Substring occurrence on character lists: `sub` occurs somewhere in the
list. -/
def subOccurs (sub : List Char) : List Char → Bool
  | [] => sub.isEmpty
  | c :: rest => sub.isPrefixOf (c :: rest) || subOccurs sub rest

/-- Model of Python's `sub in s` substring test on strings. -/
def substrIn (sub s : String) : Bool := subOccurs sub.data s.data

/-- `TARGET_DOMAINS` from the source. -/
def TARGET_DOMAINS : List String := ["aura.build", "api.aura.build"]

/-- `categorize_endpoint(path, method)` from the source: lowercase the path,
then return the first category whose substring test matches, else "other".
The `method` argument is accepted and ignored, exactly as in the source. -/
def categorize_endpoint (path method : String) : String :=
  let path_lower := lowerStr path
  if substrIn "/auth" path_lower || substrIn "/login" path_lower
      || substrIn "/token" path_lower then "auth"
  else if substrIn "/project" path_lower then "projects"
  else if substrIn "/generate" path_lower || substrIn "/ai" path_lower then
    "generation"
  else if substrIn "/export" path_lower || substrIn "/download" path_lower then
    "export"
  else if substrIn "/asset" path_lower || substrIn "/upload" path_lower
      || substrIn "/image" path_lower then "assets"
  else if substrIn "/template" path_lower then "templates"
  else if substrIn "/component" path_lower then "components"
  else if substrIn "/user" path_lower || substrIn "/account" path_lower then
    "users"
  else "other"

/-- The classifier as the specification words it: a pure function of the
path alone, testing the fixed substrings in the fixed priority order.  Kept
separate from `categorize_endpoint` so that agreement between source and
spec is a theorem, not a definition. -/
def categorizeSpecOrder (path : String) : String :=
  let pl := lowerStr path
  if substrIn "/auth" pl || substrIn "/login" pl || substrIn "/token" pl then
    "auth"
  else if substrIn "/project" pl then "projects"
  else if substrIn "/generate" pl || substrIn "/ai" pl then "generation"
  else if substrIn "/export" pl || substrIn "/download" pl then "export"
  else if substrIn "/asset" pl || substrIn "/upload" pl
      || substrIn "/image" pl then "assets"
  else if substrIn "/template" pl then "templates"
  else if substrIn "/component" pl then "components"
  else if substrIn "/user" pl || substrIn "/account" pl then "users"
  else "other"

/-- True when the lowercased path contains none of the category substrings. -/
def noCategorySubstr (path : String) : Bool :=
  let pl := lowerStr path
  !substrIn "/auth" pl && !substrIn "/login" pl && !substrIn "/token" pl
    && !substrIn "/project" pl && !substrIn "/generate" pl && !substrIn "/ai" pl
    && !substrIn "/export" pl && !substrIn "/download" pl
    && !substrIn "/asset" pl && !substrIn "/upload" pl && !substrIn "/image" pl
    && !substrIn "/template" pl && !substrIn "/component" pl
    && !substrIn "/user" pl && !substrIn "/account" pl

/-- C1: the classifier lowercases the path and returns the first matching
category of the fixed priority order; a path whose lowercase form contains
"/auth", "/login" or "/token" classifies as "auth" (even if it also contains
"/project"), and a path containing none of the category substrings
classifies as "other". -/
theorem categorize_endpoint_priority (path method : String) :
    categorize_endpoint path method = categorizeSpecOrder path ∧
    ((substrIn "/auth" (lowerStr path) || substrIn "/login" (lowerStr path)
        || substrIn "/token" (lowerStr path)) = true →
      categorize_endpoint path method = "auth") ∧
    (noCategorySubstr path = true →
      categorize_endpoint path method = "other") := by
  refine ⟨rfl, ?_, ?_⟩
  · intro h
    simp only [categorize_endpoint]
    simp [h]
  · intro h
    simp only [noCategorySubstr, Bool.and_eq_true, Bool.not_eq_true'] at h
    obtain ⟨⟨⟨⟨⟨⟨⟨⟨⟨⟨⟨⟨⟨⟨h1, h2⟩, h3⟩, h4⟩, h5⟩, h6⟩, h7⟩, h8⟩, h9⟩,
      h10⟩, h11⟩, h12⟩, h13⟩, h14⟩, h15⟩ := h
    simp only [categorize_endpoint]
    simp [h1, h2, h3, h4, h5, h6, h7, h8, h9, h10, h11, h12, h13, h14, h15]

/-- Witness for C1 at a concrete path: "/auth/project-settings" contains
both "/auth" and "/project", and classifies as "auth"; "/healthz" contains
no category substring and classifies as "other". -/
theorem categorize_endpoint_priority_witness :
    (substrIn "/auth" (lowerStr "/auth/project-settings") = true ∧
      substrIn "/project" (lowerStr "/auth/project-settings") = true ∧
      categorize_endpoint "/auth/project-settings" "GET" = "auth") ∧
    (noCategorySubstr "/healthz" = true ∧
      categorize_endpoint "/healthz" "GET" = "other") :=
  ⟨⟨by decide, by decide,
      ((categorize_endpoint_priority "/auth/project-settings" "GET").2.1
        (by decide))⟩,
    ⟨by decide,
      ((categorize_endpoint_priority "/healthz" "GET").2.2 (by decide))⟩⟩

/-- C10: the classifier's result depends only on the path; the method
argument has no influence. -/
theorem categorize_endpoint_ignores_method (path m1 m2 : String) :
    categorize_endpoint path m1 = categorize_endpoint path m2 := rfl

/-! ## Python values

`json.loads` yields Python values (None, bools, ints, strings, lists,
dicts); the program stores them and previews them through `str(...)`.
Floats are not modelled; the captured data this program builds does not
need them for the claims below. -/

inductive PyVal where
  | none : PyVal
  | bool : Bool → PyVal
  | int : Int → PyVal
  | str : String → PyVal
  | list : List PyVal → PyVal
  | dict : List (String × PyVal) → PyVal
deriving Repr

/-- Decimal digit character. -/
def digitChar (n : Nat) : Char := Char.ofNat (48 + n)

/-- Lowercase hexadecimal digit character (Python uses lowercase hex in
string escapes). -/
def hexChar (n : Nat) : Char :=
  if n < 10 then Char.ofNat (48 + n) else Char.ofNat (87 + n)

/-- Decimal digits, most significant first; the fuel only drives
structural recursion and is never exhausted when it exceeds `n`, since
`n / 10 < n` for `n ≥ 10`. -/
def natDigitsAux : Nat → Nat → List Char
  | 0, _ => []
  | fuel + 1, n =>
    if n < 10 then [digitChar n]
    else natDigitsAux fuel (n / 10) ++ [digitChar (n % 10)]

/-- Decimal digits of a natural number, most significant first. -/
def natDigitChars (n : Nat) : List Char := natDigitsAux (n + 1) n

/-- Decimal rendering of an integer, as Python and JSON write it. -/
def intChars (n : Int) : List Char :=
  if n < 0 then '-' :: natDigitChars n.natAbs else natDigitChars n.natAbs

/-- Model of CPython `repr` escaping of one character inside a string
quoted with `q`: backslash, the quote, newline, carriage return and tab get
two-character escapes; other control characters become `\xHH`; everything
else is kept (CPython would also escape non-printable characters above
U+007F, which the modelled program's data does not contain). -/
def pyEscChar (q c : Char) : List Char :=
  if c = '\\' then ['\\', '\\']
  else if c = q then ['\\', q]
  else if c = '\n' then ['\\', 'n']
  else if c = '\r' then ['\\', 'r']
  else if c = '\t' then ['\\', 't']
  else if c.toNat < 0x20 || c.toNat = 0x7f then
    ['\\', 'x', hexChar (c.toNat / 16), hexChar (c.toNat % 16)]
  else [c]

/-- Model of CPython `repr` of a string: prefer single quotes, switch to
double quotes when the string contains a single quote but no double
quote. -/
def pyQuote (s : String) : String :=
  let q : Char := if substrIn "'" s && !substrIn "\"" s then '"' else '\''
  String.mk (q :: s.data.foldr (fun c acc => pyEscChar q c ++ acc) [q])

mutual

/-- Model of Python `repr` on the modelled values. -/
def pyRepr : PyVal → String
  | PyVal.none => "None"
  | PyVal.bool b => if b then "True" else "False"
  | PyVal.int n => String.mk (intChars n)
  | PyVal.str s => pyQuote s
  | PyVal.list xs => "[" ++ pyReprItems xs ++ "]"
  | PyVal.dict kvs => "\x7b" ++ pyReprFields kvs ++ "\x7d"

/-- Comma-joined reprs of list items. -/
def pyReprItems : List PyVal → String
  | [] => ""
  | [x] => pyRepr x
  | x :: y :: rest => pyRepr x ++ ", " ++ pyReprItems (y :: rest)

/-- Comma-joined `repr(key): repr(value)` fields of a dict. -/
def pyReprFields : List (String × PyVal) → String
  | [] => ""
  | [(k, v)] => pyQuote k ++ ": " ++ pyRepr v
  | (k, v) :: f :: rest =>
    pyQuote k ++ ": " ++ pyRepr v ++ ", " ++ pyReprFields (f :: rest)

end

/-- Model of Python `str(...)`: the identity on strings, `repr` elsewhere. -/
def pyStr : PyVal → String
  | PyVal.str s => s
  | v => pyRepr v

/-- Model of Python truthiness on the modelled values. -/
def pyTruthy : PyVal → Bool
  | PyVal.none => false
  | PyVal.bool b => b
  | PyVal.int n => n != 0
  | PyVal.str s => !s.isEmpty
  | PyVal.list xs => !xs.isEmpty
  | PyVal.dict kvs => !kvs.isEmpty

/-- Model of Python string slicing `s[:n]`. -/
def strTake (s : String) (n : Nat) : String := String.mk (s.data.take n)

theorem strTake_length (s : String) (n : Nat) :
    (strTake s n).length = min n s.length := by
  cases s with
  | mk data => simpa [strTake] using List.length_take n data

/-! ## Response body extraction (extract_endpoint_info, lines 76-81 and
106-108)

The decoded response content is modelled by what the Python standard
library returns for it: `jsonParse` is the result of
`json.loads(content.decode("utf-8"))` (`Option.none` when that raises),
and `text` is `content.decode("utf-8", errors="replace")`.  An absent or
empty (falsy) `response.content` is the outer `Option.none`. -/

structure DecodedBody where
  jsonParse : Option PyVal
  text : String

/-- `response_body` of extract_endpoint_info: the parsed JSON value, or on
parse failure the replacement-decoded text truncated to 500 characters;
None when there is no response content. -/
def response_body : Option DecodedBody → Option PyVal
  | Option.none => Option.none
  | Option.some b =>
    Option.some (b.jsonParse.getD (PyVal.str (strTake b.text 500)))

/-- `response_body_preview` of extract_endpoint_info:
`str(response_body)[:500] if response_body else None` — Python truthiness,
not a None test. -/
def response_body_preview (c : Option DecodedBody) : Option String :=
  match response_body c with
  | Option.none => Option.none
  | Option.some v =>
    if pyTruthy v then Option.some (strTake (pyStr v) 500) else Option.none

/-- C2 counterexample: the response body "\x7b\x7d" is non-empty and parses
as JSON (to the empty dict, which is falsy in Python), yet the stored
response_body_example is None — not the 500-truncated preview
str(\x7b\x7d)[:500] = "\x7b\x7d" the claim requires. -/
theorem response_body_preview_empty_dict :
    response_body_preview
        (Option.some ⟨Option.some (PyVal.dict []), "\x7b\x7d"⟩)
      = Option.none ∧
    response_body_preview
        (Option.some ⟨Option.some (PyVal.dict []), "\x7b\x7d"⟩)
      ≠ Option.some (strTake (pyStr (PyVal.dict [])) 500) := by
  constructor
  · rfl
  · intro h
    simpa [response_body_preview, response_body, pyTruthy] using h

/-- C2 amended: for a response with non-empty content, if the decoded value
(parsed JSON, or on parse failure the replacement text truncated to 500) is
truthy, the stored preview is str(value)[:500], hence at most 500
characters, and exactly 500 characters whenever str(value) has at least 500
characters; if the decoded value is falsy (possible only for falsy JSON
values such as the empty dict) the stored preview is None. -/
theorem response_body_preview_spec (b : DecodedBody) :
    (pyTruthy (b.jsonParse.getD (PyVal.str (strTake b.text 500))) = true →
      response_body_preview (Option.some b)
        = Option.some
            (strTake (pyStr (b.jsonParse.getD (PyVal.str (strTake b.text 500)))) 500) ∧
      (strTake (pyStr (b.jsonParse.getD (PyVal.str (strTake b.text 500)))) 500).length
        ≤ 500 ∧
      (500 ≤ (pyStr (b.jsonParse.getD (PyVal.str (strTake b.text 500)))).length →
        (strTake (pyStr (b.jsonParse.getD (PyVal.str (strTake b.text 500)))) 500).length
          = 500)) ∧
    (pyTruthy (b.jsonParse.getD (PyVal.str (strTake b.text 500))) = false →
      response_body_preview (Option.some b) = Option.none) := by
  constructor
  · intro h
    refine ⟨?_, ?_, ?_⟩
    · simp [response_body_preview, response_body, h]
    · rw [strTake_length]; omega
    · intro hlen
      rw [strTake_length]; omega
  · intro h
    simp [response_body_preview, response_body, h]

set_option maxRecDepth 10000 in
/-- Witness for the amended C2 at a concrete input: a 1000-character body
that parses as a (truthy) JSON string of 998 characters is stored as a
preview of exactly 500 characters. -/
theorem response_body_preview_spec_witness :
    pyTruthy ((Option.some (PyVal.str (String.mk (List.replicate 998 'a')))).getD
        (PyVal.str (strTake "irrelevant" 500))) = true ∧
    response_body_preview
        (Option.some ⟨Option.some (PyVal.str (String.mk (List.replicate 998 'a'))),
          "irrelevant"⟩)
      = Option.some
          (strTake (pyStr (PyVal.str (String.mk (List.replicate 998 'a')))) 500) ∧
    (strTake (pyStr (PyVal.str (String.mk (List.replicate 998 'a')))) 500).length
      = 500 := by
  have h := response_body_preview_spec
    ⟨Option.some (PyVal.str (String.mk (List.replicate 998 'a'))), "irrelevant"⟩
  have ht : pyTruthy ((Option.some
      (PyVal.str (String.mk (List.replicate 998 'a')))).getD
        (PyVal.str (strTake "irrelevant" 500))) = true := by decide
  obtain ⟨h1, h2, h3⟩ := h.1 ht
  exact ⟨ht, h1, h3 (by decide)⟩

/-! ## Target filter (is_target_request, lines 52-55) -/

/-- Drop elements until `sep` occurs as a prefix, then drop `sep` itself;
`Option.none` when `sep` never occurs. -/
def dropThroughSep (sep : List Char) : List Char → Option (List Char)
  | [] => if sep.isEmpty then Option.some [] else Option.none
  | c :: rest =>
    if sep.isPrefixOf (c :: rest) then Option.some ((c :: rest).drop sep.length)
    else dropThroughSep sep rest

/-- Model of `urlparse(url).netloc` for the absolute http(s) URLs the proxy
hands over (`request.pretty_url` always carries a scheme): the text after
the first "://" up to the next "/", "?" or "#"; empty when "://" is
absent. -/
def netlocOf (url : String) : String :=
  match dropThroughSep "://".data url.data with
  | Option.none => ""
  | Option.some rest =>
    String.mk (rest.takeWhile (fun c => c ≠ '/' && c ≠ '?' && c ≠ '#'))

/-- `is_target_request(url)` from the source:
`any(domain in parsed.netloc for domain in TARGET_DOMAINS)` — a substring
test against the netloc, not an exact or suffix match. -/
def is_target_request (url : String) : Bool :=
  TARGET_DOMAINS.any (fun domain => substrIn domain (netlocOf url))

/-- The filter as the claim words it: the host matches a listed domain
exactly or has it as a suffix. -/
def hostExactOrSuffixMatch (host : String) : Bool :=
  TARGET_DOMAINS.any (fun domain =>
    host == domain || domain.data.reverse.isPrefixOf host.data.reverse)

theorem subOccurs_iff_infix (sub l : List Char) :
    subOccurs sub l = true ↔ sub <:+: l := by
  induction l with
  | nil =>
    simp [subOccurs, List.isEmpty_iff]
  | cons c rest ih =>
    simp only [subOccurs, Bool.or_eq_true, List.isPrefixOf_iff_prefix, ih,
      List.infix_cons_iff]

/-- C3 counterexample: the host "aura.build.evil.com" contains the listed
domain "aura.build" as a substring of its netloc, so the source filter
accepts it, although it is neither an exact match nor has a listed domain
as suffix — the claimed iff fails. -/
theorem is_target_request_superstring_host :
    is_target_request "https://aura.build.evil.com/dashboard" = true ∧
    netlocOf "https://aura.build.evil.com/dashboard" = "aura.build.evil.com" ∧
    hostExactOrSuffixMatch "aura.build.evil.com" = false := by
  refine ⟨by decide, by decide, by decide⟩

/-- C3 amended: the filter returns true iff some configured target domain
occurs as a substring of the URL's netloc; every exact or suffix match is
accepted, but so are superstring hosts. -/
theorem is_target_request_substring_spec (url : String) :
    (is_target_request url = true ↔
      substrIn "aura.build" (netlocOf url) = true ∨
      substrIn "api.aura.build" (netlocOf url) = true) ∧
    (hostExactOrSuffixMatch (netlocOf url) = true →
      is_target_request url = true) := by
  constructor
  · simp [is_target_request, TARGET_DOMAINS]
  · intro h
    simp only [hostExactOrSuffixMatch, TARGET_DOMAINS, List.any_cons,
      List.any_nil, Bool.or_eq_true, Bool.or_false, beq_iff_eq,
      List.isPrefixOf_iff_prefix] at h
    simp only [is_target_request, TARGET_DOMAINS, List.any_cons, List.any_nil,
      Bool.or_eq_true, Bool.or_false, substrIn, subOccurs_iff_infix]
    rcases h with (h | h) | (h | h)
    · exact Or.inl (by rw [h])
    · exact Or.inl ((List.reverse_prefix.mp h).isInfix)
    · exact Or.inr (by rw [h])
    · exact Or.inr ((List.reverse_prefix.mp h).isInfix)

/-- Witness for C3's amended statement: an exact in-list host passes the
filter through the exact-or-suffix clause of the theorem. -/
theorem is_target_request_substring_spec_witness :
    hostExactOrSuffixMatch (netlocOf "https://api.aura.build/v1") = true ∧
    is_target_request "https://api.aura.build/v1" = true :=
  ⟨by decide,
    (is_target_request_substring_spec "https://api.aura.build/v1").2 (by decide)⟩

/-! ## AuthInfo update (extract_endpoint_info, lines 83-89) -/

structure AuthInfo where
  method : Option String
  token_header : Option String
  sample_token : Option String
deriving Repr, DecidableEq

/-- Model of Python `s.split(" ")` with an explicit separator: split at
every single space, keeping empty fields; the result is never empty. -/
def splitOnSpace : List Char → List (List Char)
  | [] => [[]]
  | c :: rest =>
    let r := splitOnSpace rest
    if c = ' ' then [] :: r
    else (c :: r.headD []) :: r.tail

/-- `auth_header.split(" ")[-1]`: the last space-separated field. -/
def lastSplitField (s : String) : String :=
  String.mk ((splitOnSpace s.data).getLastD [])

/-- Lines 83-89 of extract_endpoint_info: the side effect on the global
auth record, as a function of `dict(request.headers).get("authorization",
"")` (so the empty string means the header is absent).  `if auth_header:`
is Python truthiness — the empty string skips the whole block. -/
def update_auth (auth : AuthInfo) (auth_header : String) : AuthInfo :=
  if auth_header = "" then auth
  else
    let auth1 : AuthInfo :=
      { auth with
        method := Option.some
          (if substrIn "Bearer" auth_header then "Bearer" else "Unknown"),
        token_header := Option.some "Authorization" }
    if substrIn "Bearer" auth_header then
      { auth1 with
        sample_token :=
          Option.some (strTake (lastSplitField auth_header) 20 ++ "...") }
    else auth1

/-- C4 counterexample: a present non-Bearer header ("Basic xyz") sets
token_header to "Authorization" even when it was previously unset — the
claim says token_header is left exactly as previously set. -/
theorem update_auth_nonbearer_sets_token_header :
    (update_auth ⟨Option.none, Option.none, Option.none⟩ "Basic xyz").token_header
      = Option.some "Authorization" ∧
    (update_auth ⟨Option.none, Option.none, Option.none⟩ "Basic xyz").token_header
      ≠ Option.none := by
  refine ⟨by decide, by decide⟩

/-- C4 amended: a header containing "Bearer" sets method="Bearer",
token_header="Authorization" and sample_token to the first 20 characters of
the last space-separated field plus "..."; a present header without
"Bearer" sets method="Unknown" AND token_header="Authorization" while
sample_token alone is left as previously set; an absent header changes
nothing. -/
theorem update_auth_spec (auth : AuthInfo) (hdr : String) :
    (substrIn "Bearer" hdr = true →
      update_auth auth hdr =
        ⟨Option.some "Bearer", Option.some "Authorization",
          Option.some (strTake (lastSplitField hdr) 20 ++ "...")⟩) ∧
    (hdr ≠ "" → substrIn "Bearer" hdr = false →
      update_auth auth hdr =
        ⟨Option.some "Unknown", Option.some "Authorization",
          auth.sample_token⟩) ∧
    (hdr = "" → update_auth auth hdr = auth) := by
  refine ⟨?_, ?_, ?_⟩
  · intro hb
    have hne : hdr ≠ "" := by
      rintro rfl
      simp [substrIn, subOccurs] at hb
    simp [update_auth, hne, hb]
  · intro hne hb
    simp [update_auth, hne, hb]
  · intro he
    simp [update_auth, he]

/-- Witness for C4's amended statement: the spec's own scenario — header
"Bearer abcdefghijklmnopqrstuvwxyz" yields method "Bearer" and sample
token "abcdefghijklmnopqrst..." (first 20 characters plus ellipsis). -/
theorem update_auth_spec_witness :
    substrIn "Bearer" "Bearer abcdefghijklmnopqrstuvwxyz" = true ∧
    update_auth ⟨Option.none, Option.none, Option.none⟩
        "Bearer abcdefghijklmnopqrstuvwxyz"
      = ⟨Option.some "Bearer", Option.some "Authorization",
          Option.some "abcdefghijklmnopqrst..."⟩ :=
  ⟨by decide, by
    rw [(update_auth_spec ⟨Option.none, Option.none, Option.none⟩
      "Bearer abcdefghijklmnopqrstuvwxyz").1 (by decide)]
    decide⟩

/-! ## Client generation (generate_typescript_client, lines 190-237)

The generator reads the persisted JSON and walks
`data.get("endpoints", {}).items()`: category → (endpoint key → endpoint),
using only the `method` and `path` fields of each endpoint.  The dicts are
modelled as association lists in insertion order, which is the iteration
order of Python dicts. -/

structure GenEndpoint where
  method : String
  path : String
deriving Repr, DecidableEq

/-- Model of Python `str.upper` (ASCII, mirroring `lowerStr`). -/
def upperStr (s : String) : String := String.mk (s.data.map Char.toUpper)

/-- Model of Python `s.strip("_")`: remove leading and trailing
underscores. -/
def strip_underscores (s : String) : String :=
  String.mk
    (((s.data.dropWhile (fun c => c = '_')).reverse.dropWhile
      (fun c => c = '_')).reverse)

/-- Model of Python `s.replace(a, b)` for one-character `a` and `b` (the
only replacements the generator performs). -/
def replaceChar (a b : Char) (s : String) : String :=
  String.mk (s.data.map (fun c => if c = a then b else c))

theorem strData_append (a b : String) : (a ++ b).data = a.data ++ b.data := rfl

/-- Concatenation of a list of strings (the `ts_code +=` loop). -/
def strConcat : List String → String
  | [] => ""
  | s :: rest => s ++ strConcat rest

/-- The fixed header template of the generated client (lines 195-217);
generation appends category blocks and a closing brace to it. -/
def ts_header : String :=
  "/**\n * Auto-generated Aura.build API Client\n * Generated from intercepted API calls\n */\n\nimport axios, \x7b AxiosInstance \x7d from 'axios';\n\nconst BASE_URL = '$\x7bBASE_URL\x7d';\n\nexport class AuraClient \x7b\n  private client: AxiosInstance;\n\n  constructor(token?: string) \x7b\n    this.client = axios.create(\x7b\n      baseURL: BASE_URL,\n      headers: \x7b\n        'Content-Type': 'application/json',\n        ...(token ? \x7b 'Authorization': `Bearer $\x7btoken\x7d` \x7d : \x7b\x7d),\n      \x7d,\n    \x7d);\n  \x7d\n\n"

/-- One generated method (lines 224-233): the lowercased HTTP method, the
derived function name, and a call of `this.client.<method>('<path>',
params)`. -/
def endpointStub (e : GenEndpoint) : String :=
  let meth := lowerStr e.method
  let fname :=
    meth ++ "_"
      ++ strip_underscores (replaceChar '-' '_' (replaceChar '/' '_' e.path))
  "\n  async " ++ fname
    ++ "(params?: Record<string, unknown>): Promise<unknown> \x7b\n    return this.client."
    ++ meth ++ "('" ++ e.path ++ "', params).then(r => r.data);\n  \x7d\n"

/-- One category block (lines 220-233): a comment with the uppercased
category name, then the stubs of its endpoints in stored order. -/
def categoryBlock (cat : String) (eps : List (String × GenEndpoint)) : String :=
  "  // " ++ upperStr cat ++ "\n" ++ strConcat (eps.map (fun kv => endpointStub kv.2))

/-- `generate_typescript_client` over the loaded `endpoints` mapping. -/
def generate_typescript_client
    (endpoints : List (String × List (String × GenEndpoint))) : String :=
  ts_header
    ++ strConcat (endpoints.map (fun ce => categoryBlock ce.1 ce.2))
    ++ "\x7d\n"

/-- The method-name derivation exactly as the specification words it:
replace every "/" and "-" with "_", strip leading and trailing
underscores, prefix with the lowercased method and an underscore. -/
def specMethodName (method path : String) : String :=
  lowerStr method ++ "_"
    ++ strip_underscores (replaceChar '-' '_' (replaceChar '/' '_' path))

theorem infix_of_infix_append_left {x m : List Char} (l : List Char)
    (h : x <:+: m) : x <:+: l ++ m := by
  obtain ⟨s, t, rfl⟩ := h
  exact ⟨l ++ s, t, by simp⟩

theorem infix_of_infix_append_right {x m : List Char} (r : List Char)
    (h : x <:+: m) : x <:+: m ++ r := by
  obtain ⟨s, t, rfl⟩ := h
  exact ⟨s, t ++ r, by simp⟩

theorem infix_strConcat_of_mem {α : Type} (f : α → String) {x : α}
    {l : List α} (h : x ∈ l) : (f x).data <:+: (strConcat (l.map f)).data := by
  induction l with
  | nil => cases h
  | cons y rest ih =>
    simp only [List.map_cons, strConcat, strData_append]
    rcases List.mem_cons.mp h with rfl | h
    · exact infix_of_infix_append_right _ List.infix_rfl
    · exact infix_of_infix_append_left _ (ih h)

set_option maxHeartbeats 1000000 in
/-- C5: every stored endpoint with method M and path P yields a method in
the generated client whose name is the spec's derivation (path with "/"
and "-" replaced by "_", stripped of outer underscores, prefixed by the
lowercased method) and whose body calls `this.client.<lowercased
M>('<P>', params)` — a request of method M to exactly path P. -/
theorem generate_typescript_client_method (endpoints : List (String × List (String × GenEndpoint)))
    (cat : String) (eps : List (String × GenEndpoint)) (e : String × GenEndpoint)
    (hc : (cat, eps) ∈ endpoints) (he : e ∈ eps) :
    substrIn (endpointStub e.2) (generate_typescript_client endpoints) = true ∧
    endpointStub e.2
      = "\n  async " ++ specMethodName e.2.method e.2.path
        ++ "(params?: Record<string, unknown>): Promise<unknown> \x7b\n    return this.client."
        ++ lowerStr e.2.method ++ "('" ++ e.2.path
        ++ "', params).then(r => r.data);\n  \x7d\n" := by
  constructor
  · rw [substrIn, subOccurs_iff_infix]
    have h1 : (endpointStub e.2).data <:+: (categoryBlock cat eps).data := by
      simp only [categoryBlock, strData_append, List.append_assoc]
      apply infix_of_infix_append_left
      apply infix_of_infix_append_left
      apply infix_of_infix_append_left
      exact infix_strConcat_of_mem
        (fun kv : String × GenEndpoint => endpointStub kv.2) he
    have h2 : (categoryBlock cat eps).data
        <:+: (strConcat (endpoints.map (fun ce => categoryBlock ce.1 ce.2))).data := by
      have := infix_strConcat_of_mem
        (fun ce : String × List (String × GenEndpoint) =>
          categoryBlock ce.1 ce.2) hc
      simpa using this
    simp only [generate_typescript_client, strData_append, List.append_assoc]
    apply infix_of_infix_append_left
    apply infix_of_infix_append_right
    exact h1.trans h2
  · rfl

/-- Witness for C5: the spec's round-trip scenario — a capture holding the
single endpoint "GET /api/projects" generates a method named
get_api_projects whose body issues a GET to '/api/projects'. -/
theorem generate_typescript_client_method_witness :
    (("projects", [("GET /api/projects", GenEndpoint.mk "GET" "/api/projects")])
        ∈ [("projects", [("GET /api/projects", GenEndpoint.mk "GET" "/api/projects")])]) ∧
    specMethodName "GET" "/api/projects" = "get_api_projects" ∧
    substrIn (endpointStub (GenEndpoint.mk "GET" "/api/projects"))
        (generate_typescript_client
          [("projects", [("GET /api/projects", GenEndpoint.mk "GET" "/api/projects")])])
      = true ∧
    endpointStub (GenEndpoint.mk "GET" "/api/projects")
      = "\n  async get_api_projects(params?: Record<string, unknown>): Promise<unknown> \x7b\n    return this.client.get('/api/projects', params).then(r => r.data);\n  \x7d\n" := by
  refine ⟨List.mem_singleton.mpr rfl, by decide, ?_, by decide⟩
  exact (generate_typescript_client_method
    [("projects", [("GET /api/projects", GenEndpoint.mk "GET" "/api/projects")])]
    "projects" [("GET /api/projects", GenEndpoint.mk "GET" "/api/projects")]
    ("GET /api/projects", GenEndpoint.mk "GET" "/api/projects")
    (List.mem_singleton.mpr rfl) (List.mem_singleton.mpr rfl)).1

/-! ## Entry point, --generate-client branch (main, lines 250-259) -/

/-- Replace every non-overlapping occurrence of `pat` in the list,
scanning left to right — the semantics of Python `str.replace` (whose
pattern here, ".json", is never empty; an empty `pat` is treated as
matching nowhere).  The fuel argument only drives structural recursion:
every step consumes at least one list element, so fuel equal to the list
length is never exhausted. -/
def replaceOccs (pat rep : List Char) : Nat → List Char → List Char
  | 0, l => l
  | _ + 1, [] => []
  | fuel + 1, c :: rest =>
    if !pat.isEmpty && pat.isPrefixOf (c :: rest) then
      rep ++ replaceOccs pat rep fuel ((c :: rest).drop pat.length)
    else c :: replaceOccs pat rep fuel rest

/-- Model of Python `s.replace(pat, rep)`: all occurrences, anywhere in the
string — not only a suffix. -/
def pyReplace (s pat rep : String) : String :=
  String.mk (replaceOccs pat.data rep.data s.data.length s.data)

/-- The `--generate-client` branch of main as a function of the
`--output` argument, whether that file exists, and the endpoints mapping
loaded from it when it does.  Returns the list of (path, content) file
writes performed and the message printed; the branch then returns. -/
def generate_client_main (output : String) (fileExists : Bool)
    (endpoints : List (String × List (String × GenEndpoint))) :
    List (String × String) × String :=
  if fileExists then
    let ts_client := generate_typescript_client endpoints
    let ts_output := pyReplace output ".json" "_client.ts"
    ([(ts_output, ts_client)],
      "Generated TypeScript client: " ++ ts_output)
  else
    ([], "Error: " ++ output ++ " not found. Run interception first.")

/-- C8: when the input capture file does not exist, the generate-client run
prints an error naming the file and performs no file write at all, for any
output argument and any data the file would have held. -/
theorem generate_client_main_missing_input (output : String)
    (endpoints : List (String × List (String × GenEndpoint))) :
    generate_client_main output false endpoints
      = ([], "Error: " ++ output ++ " not found. Run interception first.") :=
  rfl

/-- C9 counterexample: for the input path "a.json.json" the code names the
output "a_client.ts_client.ts" (every ".json" occurrence replaced), not
"a.json_client.ts" (only the ".json" suffix replaced) as the claim
states. -/
theorem generate_client_output_name_all_occurrences :
    ((generate_client_main "a.json.json" true []).1.map Prod.fst)
      = ["a_client.ts_client.ts"] ∧
    "a_client.ts_client.ts" ≠ "a.json_client.ts" := by
  constructor
  · rfl
  · decide

/-- C9 amended: for every input path, the generated client file is named by
replacing every occurrence of ".json" in the input path (scanning left to
right, non-overlapping) with "_client.ts" — not only the ".json" suffix —
and exactly one file is written, holding the generated client. -/
theorem generate_client_output_name (output : String)
    (endpoints : List (String × List (String × GenEndpoint))) :
    (generate_client_main output true endpoints).1
      = [(pyReplace output ".json" "_client.ts",
          generate_typescript_client endpoints)] :=
  rfl

/-! ## The observer callback (AuraInterceptor.response, lines 137-187)

One observed exchange is a `Flow`: the fields of the mitmproxy flow the
callback reads, with bodies already decoded as in `DecodedBody`.
mitmproxy's `request.path` (used for the static-asset check) and the path
parsed out of `pretty_url` (used everywhere else) are distinct fields. -/

structure RespData where
  status : Nat
  headers : List (String × String)
  content : Option DecodedBody

structure Flow where
  method : String
  url : String
  reqPath : String
  query : List (String × String)
  headers : List (String × String)
  reqContent : Option DecodedBody
  response : Option RespData

/-- Model of `urlparse(url).path` for the absolute http(s) URLs the proxy
hands over: everything after the netloc up to "?" or "#"; for a URL
without "://" the whole text up to "?" or "#". -/
def pathOf (url : String) : String :=
  match dropThroughSep "://".data url.data with
  | Option.none =>
    String.mk (url.data.takeWhile (fun c => c ≠ '?' && c ≠ '#'))
  | Option.some rest =>
    String.mk
      (((rest.dropWhile (fun c => c ≠ '/' && c ≠ '?' && c ≠ '#')).takeWhile
        (fun c => c ≠ '?' && c ≠ '#')))

/-- `dict(request.headers).get(name, "")`. -/
def headersGet (hs : List (String × String)) (name : String) : String :=
  ((hs.find? (fun kv => kv.1 = name)).map Prod.snd).getD ""

/-- The record built by extract_endpoint_info (lines 91-110). -/
structure RequestRecord where
  method : String
  path : String
  full_url : String
  query_params : List (String × String)
  request_headers : List (String × String)
  request_body : Option PyVal
  response_status : Option Nat
  response_headers : Option (List (String × String))
  response_body_preview : Option String
  timestamp : String

/-- `extract_endpoint_info(flow)` (lines 58-110): the returned record plus
the updated global auth info; `now` is the wall-clock timestamp the
function reads. -/
def extract_endpoint_info (flow : Flow) (auth : AuthInfo) (now : String) :
    RequestRecord × AuthInfo :=
  ({ method := flow.method
     path := pathOf flow.url
     full_url := flow.url
     query_params := flow.query
     request_headers := flow.headers.filter (fun kv =>
       ["content-type", "authorization", "x-api-key", "accept"].contains
         (lowerStr kv.1))
     request_body := flow.reqContent.map (fun b =>
       b.jsonParse.getD (PyVal.str b.text))
     response_status := flow.response.map (fun r => r.status)
     response_headers := flow.response.map (fun r =>
       r.headers.filter (fun kv =>
         ["content-type", "set-cookie"].contains (lowerStr kv.1)))
     response_body_preview :=
       response_body_preview (flow.response.bind (fun r => r.content))
     timestamp := now },
   update_auth auth (headersGet flow.headers "authorization"))

structure EndpointSummary where
  method : String
  path : String
  query_params : List (String × String)
  request_body_example : Option PyVal
  response_status : Option Nat
  response_body_example : Option String
  last_seen : String

/-- The process-wide `captured_endpoints` aggregate (lines 30-40). -/
structure CaptureStore where
  captured_at : String
  base_url : String
  endpoints : List (String × List (String × EndpointSummary))
  auth : AuthInfo
  requests : List RequestRecord

/-- `captured_endpoints` as initialized at process start, with `now` the
start-time timestamp. -/
def initial_captured_endpoints (now : String) : CaptureStore :=
  { captured_at := now
    base_url := "https://www.aura.build"
    endpoints := []
    auth := ⟨Option.none, Option.none, Option.none⟩
    requests := [] }

/-- Python dict insert-or-overwrite: an existing key keeps its position and
gets the new value, a new key is appended. -/
def upsert {β : Type} (l : List (String × β)) (k : String) (v : β) :
    List (String × β) :=
  match l with
  | [] => [(k, v)]
  | (k', v') :: rest =>
    if k' = k then (k, v) :: rest else (k', v') :: upsert rest k v

/-- The static-asset extensions of line 150. -/
def STATIC_EXTS : List String := [".js", ".css", ".png", ".jpg", ".svg", ".woff"]

/-- Addon state: the global store plus the instance counter. -/
structure InterceptorState where
  store : CaptureStore
  request_count : Nat

/-- The log line of line 182: `[<count>] <METHOD> <path> -> <status-or-?>`;
`endpoint_info["response_status"] or "?"` is Python truthiness, so both a
missing response and a zero status print "?". -/
def logLine (count : Nat) (info : RequestRecord) : String :=
  "[" ++ String.mk (natDigitChars count) ++ "] " ++ info.method ++ " "
    ++ info.path ++ " -> "
    ++ (match info.response_status with
        | Option.some s =>
          if s = 0 then "?" else String.mk (natDigitChars s)
        | Option.none => "?")

/-- `AuraInterceptor.response(flow)` (lines 144-182): returns the new addon
state, the list of store snapshots written to disk, and the log line
emitted, if any. -/
def response_callback (st : InterceptorState) (flow : Flow) (now : String) :
    InterceptorState × List CaptureStore × Option String :=
  if !is_target_request flow.url then (st, [], Option.none)
  else if STATIC_EXTS.any (fun ext => substrIn ext flow.reqPath) then
    (st, [], Option.none)
  else
    let count := st.request_count + 1
    let extracted := extract_endpoint_info flow st.store.auth now
    let info := extracted.1
    let category := categorize_endpoint info.path info.method
    let key := info.method ++ " " ++ info.path
    let summary : EndpointSummary :=
      { method := info.method
        path := info.path
        query_params := info.query_params
        request_body_example := info.request_body
        response_status := info.response_status
        response_body_example := info.response_body_preview
        last_seen := info.timestamp }
    let catMap := (((st.store.endpoints.find? (fun kv => kv.1 = category)).map
      Prod.snd).getD [])
    let store' : CaptureStore :=
      { st.store with
        auth := extracted.2
        endpoints := upsert st.store.endpoints category (upsert catMap key summary)
        requests := st.store.requests ++ [info] }
    (⟨store', count⟩, [store'], Option.some (logLine count info))

/-- C6: an exchange whose request path contains a static-asset extension
as a substring is dropped with no effect whatsoever — the state (store and
counter) is returned unchanged, nothing is persisted, and no log line is
emitted — regardless of the host, so in particular also when the host
matches the target domains. -/
theorem response_callback_skips_static_assets (st : InterceptorState)
    (flow : Flow) (now : String)
    (h : STATIC_EXTS.any (fun ext => substrIn ext flow.reqPath) = true) :
    response_callback st flow now = (st, [], Option.none) := by
  by_cases ht : is_target_request flow.url
  · simp [response_callback, ht, h]
  · simp [response_callback, ht]

/-- Witness for C6: the spec's scenario — a GET for /static/app.js on the
target host aura.build is on-target yet never recorded, starting from the
freshly initialized store. -/
theorem response_callback_skips_static_assets_witness :
    is_target_request "https://aura.build/static/app.js" = true ∧
    STATIC_EXTS.any (fun ext => substrIn ext "/static/app.js") = true ∧
    response_callback
        ⟨initial_captured_endpoints "2026-01-01T00:00:00", 0⟩
        ⟨"GET", "https://aura.build/static/app.js", "/static/app.js", [], [],
          Option.none, Option.none⟩
        "2026-01-01T00:00:01"
      = (⟨initial_captured_endpoints "2026-01-01T00:00:00", 0⟩, [],
          Option.none) :=
  ⟨by decide, by decide,
    response_callback_skips_static_assets
      ⟨initial_captured_endpoints "2026-01-01T00:00:00", 0⟩
      ⟨"GET", "https://aura.build/static/app.js", "/static/app.js", [], [],
        Option.none, Option.none⟩
      "2026-01-01T00:00:01" (by decide)⟩

/-! ## Persistence round trip (save, line 184-187, and the json.load of
line 192-193)

`json.dump(captured_endpoints, f, indent=2, default=str)` and `json.load`
are modelled over `PyVal` by an executable printer `jdump`/`dumps` and an
executable parser `loads`, both below.  Floats are not modelled, and the
parser requires what Python guarantees of the dumped dicts: no duplicate
keys (Python's json.load would keep the last duplicate, this parser keeps
all pairs).  The round-trip theorem therefore carries the no-duplicate
well-formedness hypothesis. -/

theorem toNat_ofNat_valid (n : Nat) (h : Nat.isValidChar n) :
    (Char.ofNat n).toNat = n := by
  simp [Char.ofNat, Char.toNat, h, Char.ofNatAux, UInt32.toNat]

theorem toNat_digitChar (n : Nat) (h : n < 10) :
    (digitChar n).toNat = 48 + n := by
  apply toNat_ofNat_valid
  left
  omega

/-- The numeric value of a most-significant-first digit run, as the parser
computes it. -/
def valOfDigits (l : List Char) : Nat :=
  l.foldl (fun a c => a * 10 + (c.toNat - 48)) 0

theorem isDigit_iff (c : Char) :
    c.isDigit = true ↔ 48 ≤ c.toNat ∧ c.toNat ≤ 57 := by
  simp [Char.isDigit, Char.toNat, UInt32.le_def, BitVec.le_def]
  constructor
  · rintro ⟨h1, h2⟩; exact ⟨h1, h2⟩
  · rintro ⟨h1, h2⟩; exact ⟨h1, h2⟩

theorem isDigit_digitChar (n : Nat) (h : n < 10) :
    (digitChar n).isDigit = true := by
  rw [isDigit_iff, toNat_digitChar n h]
  omega

theorem valOfDigits_append_one (l : List Char) (c : Char) :
    valOfDigits (l ++ [c]) = valOfDigits l * 10 + (c.toNat - 48) := by
  simp [valOfDigits, List.foldl_append]

theorem natDigitsAux_spec (fuel : Nat) : ∀ n, n < fuel →
    valOfDigits (natDigitsAux fuel n) = n ∧
    natDigitsAux fuel n ≠ [] ∧
    (∀ c ∈ natDigitsAux fuel n, c.isDigit = true) := by
  induction fuel with
  | zero => intro n hn; omega
  | succ g ih =>
    intro n hn
    by_cases h10 : n < 10
    · refine ⟨?_, by simp [natDigitsAux, h10], ?_⟩
      · simp [natDigitsAux, h10, valOfDigits, toNat_digitChar n h10]
      · intro c hc
        simp [natDigitsAux, h10] at hc
        subst hc
        exact isDigit_digitChar n h10
    · have hdiv : n / 10 < g := by omega
      obtain ⟨hval, hne, hall⟩ := ih (n / 10) hdiv
      refine ⟨?_, by simp [natDigitsAux, h10], ?_⟩
      · rw [natDigitsAux, if_neg h10, valOfDigits_append_one, hval,
          toNat_digitChar (n % 10) (by omega)]
        omega
      · intro c hc
        rw [natDigitsAux, if_neg h10] at hc
        rcases List.mem_append.mp hc with hc | hc
        · exact hall c hc
        · simp at hc
          subst hc
          exact isDigit_digitChar (n % 10) (by omega)

theorem natDigitChars_spec (n : Nat) :
    valOfDigits (natDigitChars n) = n ∧
    natDigitChars n ≠ [] ∧
    (∀ c ∈ natDigitChars n, c.isDigit = true) :=
  natDigitsAux_spec (n + 1) n (by omega)

theorem char_toNat_lt (c : Char) : c.toNat < 1114112 := by
  have h := c.valid
  rcases h with h | h
  · simp [Char.toNat]; omega
  · simp [Char.toNat]; omega

theorem char_toNat_not_surrogate (c : Char) :
    ¬ (55296 ≤ c.toNat ∧ c.toNat ≤ 57343) := by
  have h := c.valid
  rcases h with h | h <;> simp [Char.toNat] <;> omega

/-- Four lowercase hex digits, as CPython's ensure_ascii `\uXXXX` escapes
write them. -/
def hex4 (n : Nat) : List Char :=
  [hexChar (n / 4096 % 16), hexChar (n / 256 % 16),
    hexChar (n / 16 % 16), hexChar (n % 16)]

/-- One character of a JSON string as json.dump with ensure_ascii (the
default) writes it: two-character escapes for backslash, quote and the
common control characters, the character itself in printable ASCII,
`\uXXXX` otherwise, with a surrogate pair above U+FFFF. -/
def jsonEscChar (c : Char) : List Char :=
  if c = '\\' then ['\\', '\\']
  else if c = '"' then ['\\', '"']
  else if c.toNat = 8 then ['\\', 'b']
  else if c.toNat = 12 then ['\\', 'f']
  else if c = '\n' then ['\\', 'n']
  else if c = '\r' then ['\\', 'r']
  else if c = '\t' then ['\\', 't']
  else if 32 ≤ c.toNat ∧ c.toNat ≤ 126 then [c]
  else if c.toNat < 65536 then '\\' :: 'u' :: hex4 c.toNat
  else
    '\\' :: 'u' :: hex4 (55296 + (c.toNat - 65536) / 1024)
      ++ '\\' :: 'u' :: hex4 (56320 + (c.toNat - 65536) % 1024)

/-- The escaped content of a JSON string followed by its closing quote. -/
def jsonEscStr : List Char → List Char
  | [] => ['"']
  | c :: rest => jsonEscChar c ++ jsonEscStr rest

/-- Value of one hex digit, upper or lower case. -/
def hexVal (c : Char) : Option Nat :=
  if 48 ≤ c.toNat ∧ c.toNat ≤ 57 then Option.some (c.toNat - 48)
  else if 97 ≤ c.toNat ∧ c.toNat ≤ 102 then Option.some (c.toNat - 87)
  else if 65 ≤ c.toNat ∧ c.toNat ≤ 70 then Option.some (c.toNat - 55)
  else Option.none

def parseHex4 : List Char → Option (Nat × List Char)
  | a :: b :: c :: d :: rest =>
    match hexVal a, hexVal b, hexVal c, hexVal d with
    | Option.some va, Option.some vb, Option.some vc, Option.some vd =>
      Option.some (((va * 16 + vb) * 16 + vc) * 16 + vd, rest)
    | _, _, _, _ => Option.none
  | _ => Option.none

/-- The `\uXXXX` tail of an escape. -/
def parseEscU (l : List Char) : Option (Char × List Char) :=
  (parseHex4 l).bind (fun hr =>
    if 55296 ≤ hr.1 ∧ hr.1 ≤ 56319 then
      match hr.2 with
      | '\\' :: 'u' :: rest2 =>
        (parseHex4 rest2).bind (fun lr =>
          if 56320 ≤ lr.1 ∧ lr.1 ≤ 57343 then
            Option.some
              (Char.ofNat (65536 + (hr.1 - 55296) * 1024 + (lr.1 - 56320)), lr.2)
          else Option.none)
      | _ => Option.none
    else if 56320 ≤ hr.1 ∧ hr.1 ≤ 57343 then Option.none
    else Option.some (Char.ofNat hr.1, hr.2))

/-- One escape sequence after the backslash, per the JSON grammar that
json.load accepts.  A `\uXXXX` high surrogate must be followed by a low
surrogate; Python would tolerate lone surrogates (producing strings Lean's
`Char` cannot hold), but json.dump output never contains them, so they are
modelled as failure. -/
def parseEsc (l : List Char) : Option (Char × List Char) :=
  match l with
  | [] => Option.none
  | e :: rest =>
    if e = '"' then Option.some ('"', rest)
    else if e = '\\' then Option.some ('\\', rest)
    else if e = '/' then Option.some ('/', rest)
    else if e = 'b' then Option.some (Char.ofNat 8, rest)
    else if e = 'f' then Option.some (Char.ofNat 12, rest)
    else if e = 'n' then Option.some ('\n', rest)
    else if e = 'r' then Option.some ('\r', rest)
    else if e = 't' then Option.some ('\t', rest)
    else if e = 'u' then parseEscU rest
    else Option.none

/-- JSON string contents after the opening quote, strict mode: raw control
characters are rejected, escapes decoded, stops at the closing quote. -/
def parseStringBody : Nat → List Char → Option (List Char × List Char)
  | 0, _ => Option.none
  | _ + 1, [] => Option.none
  | fuel + 1, c :: rest =>
    if c = '"' then Option.some ([], rest)
    else if c = '\\' then
      match parseEsc rest with
      | Option.some (e, rest1) =>
        (parseStringBody fuel rest1).map (fun sr => (e :: sr.1, sr.2))
      | Option.none => Option.none
    else if c.toNat < 32 then Option.none
    else (parseStringBody fuel rest).map (fun sr => (c :: sr.1, sr.2))

theorem hexVal_hexChar (d : Nat) (h : d < 16) :
    hexVal (hexChar d) = Option.some d := by
  by_cases h10 : d < 10
  · have ht : (hexChar d).toNat = 48 + d := by
      rw [hexChar, if_pos h10]
      exact toNat_ofNat_valid (48 + d) (Or.inl (by omega))
    rw [hexVal, ht, if_pos (by omega)]
    simp
  · have ht : (hexChar d).toNat = 87 + d := by
      rw [hexChar, if_neg h10]
      exact toNat_ofNat_valid (87 + d) (Or.inl (by omega))
    rw [hexVal, ht, if_neg (by omega), if_pos (by omega)]
    simp

theorem parseHex4_hex4 (m : Nat) (rest : List Char) (h : m < 65536) :
    parseHex4 (hex4 m ++ rest) = Option.some (m, rest) := by
  have ha := hexVal_hexChar (m / 4096 % 16) (by omega)
  have hb := hexVal_hexChar (m / 256 % 16) (by omega)
  have hc := hexVal_hexChar (m / 16 % 16) (by omega)
  have hd := hexVal_hexChar (m % 16) (by omega)
  simp only [hex4, List.cons_append, List.nil_append, parseHex4, ha, hb, hc, hd]
  congr 1
  congr 1
  omega

theorem psb_esc (f : Nat) (X r1 : List Char) (e : Char)
    (hpe : parseEsc X = Option.some (e, r1)) :
    parseStringBody (f + 1) ('\\' :: X)
      = (parseStringBody f r1).map (fun sr => (e :: sr.1, sr.2)) := by
  simp only [parseStringBody]
  rw [if_neg (by decide), if_pos trivial, hpe]

theorem psb_plain (f : Nat) (c : Char) (X : List Char) (h2 : ¬ c = '"')
    (h1 : ¬ c = '\\') (hq : ¬ c.toNat < 32) :
    parseStringBody (f + 1) (c :: X)
      = (parseStringBody f X).map (fun sr => (c :: sr.1, sr.2)) := by
  simp only [parseStringBody]
  rw [if_neg h2, if_neg h1, if_neg hq]

theorem parseEscU_bmp (X : List Char) (m : Nat) (r1 : List Char)
    (hph : parseHex4 X = Option.some (m, r1))
    (hno1 : ¬ (55296 ≤ m ∧ m ≤ 56319)) (hno2 : ¬ (56320 ≤ m ∧ m ≤ 57343)) :
    parseEscU X = Option.some (Char.ofNat m, r1) := by
  rw [parseEscU, hph]
  simp only [Option.some_bind]
  rw [if_neg hno1, if_neg hno2]

theorem parseEscU_pair (X X2 r3 : List Char) (hi lo : Nat)
    (hph1 : parseHex4 X = Option.some (hi, '\\' :: 'u' :: X2))
    (hpos1 : 55296 ≤ hi ∧ hi ≤ 56319)
    (hph2 : parseHex4 X2 = Option.some (lo, r3))
    (hpos2 : 56320 ≤ lo ∧ lo ≤ 57343) :
    parseEscU X
      = Option.some (Char.ofNat (65536 + (hi - 55296) * 1024 + (lo - 56320)), r3) := by
  rw [parseEscU, hph1]
  simp only [Option.some_bind]
  rw [if_pos hpos1]
  simp only [hph2, Option.some_bind]
  rw [if_pos hpos2]

theorem parseEsc_u (X : List Char) : parseEsc ('u' :: X) = parseEscU X := rfl

theorem parseStringBody_jsonEscStr :
    ∀ (s : List Char) (fuel : Nat) (rest : List Char), s.length < fuel →
      parseStringBody fuel (jsonEscStr s ++ rest) = Option.some (s, rest) := by
  intro s
  induction s with
  | nil =>
    intro fuel rest hf
    cases fuel with
    | zero => omega
    | succ f => simp [jsonEscStr, parseStringBody]
  | cons c cs ih =>
    intro fuel rest hf
    cases fuel with
    | zero => omega
    | succ f =>
      have hcs : cs.length < f := by
        simp only [List.length_cons] at hf
        omega
      have hT := ih f rest hcs
      simp only [jsonEscStr, List.append_assoc]
      by_cases h1 : c = '\\'
      · subst h1
        rw [show jsonEscChar '\\' = ['\\', '\\'] from rfl]
        simp only [List.cons_append, List.nil_append]
        rw [psb_esc f ('\\' :: (jsonEscStr cs ++ rest)) (jsonEscStr cs ++ rest) '\\' rfl, hT]
        rfl
      by_cases h2 : c = '"'
      · subst h2
        rw [show jsonEscChar '"' = ['\\', '"'] from rfl]
        simp only [List.cons_append, List.nil_append]
        rw [psb_esc f ('"' :: (jsonEscStr cs ++ rest)) (jsonEscStr cs ++ rest) '"' rfl, hT]
        rfl
      by_cases h3 : c.toNat = 8
      · have hc8 : Char.ofNat 8 = c := by rw [← h3, Char.ofNat_toNat]
        rw [jsonEscChar, if_neg h1, if_neg h2, if_pos h3]
        simp only [List.cons_append, List.nil_append]
        rw [psb_esc f ('b' :: (jsonEscStr cs ++ rest)) (jsonEscStr cs ++ rest) (Char.ofNat 8) rfl, hT, hc8]
        rfl
      by_cases h4 : c.toNat = 12
      · have hc12 : Char.ofNat 12 = c := by rw [← h4, Char.ofNat_toNat]
        rw [jsonEscChar, if_neg h1, if_neg h2, if_neg h3, if_pos h4]
        simp only [List.cons_append, List.nil_append]
        rw [psb_esc f ('f' :: (jsonEscStr cs ++ rest)) (jsonEscStr cs ++ rest) (Char.ofNat 12) rfl, hT, hc12]
        rfl
      by_cases h5 : c = '\n'
      · subst h5
        rw [show jsonEscChar '\n' = ['\\', 'n'] from rfl]
        simp only [List.cons_append, List.nil_append]
        rw [psb_esc f ('n' :: (jsonEscStr cs ++ rest)) (jsonEscStr cs ++ rest) '\n' rfl, hT]
        rfl
      by_cases h6 : c = '\r'
      · subst h6
        rw [show jsonEscChar '\r' = ['\\', 'r'] from rfl]
        simp only [List.cons_append, List.nil_append]
        rw [psb_esc f ('r' :: (jsonEscStr cs ++ rest)) (jsonEscStr cs ++ rest) '\r' rfl, hT]
        rfl
      by_cases h7 : c = '\t'
      · subst h7
        rw [show jsonEscChar '\t' = ['\\', 't'] from rfl]
        simp only [List.cons_append, List.nil_append]
        rw [psb_esc f ('t' :: (jsonEscStr cs ++ rest)) (jsonEscStr cs ++ rest) '\t' rfl, hT]
        rfl
      by_cases h8 : 32 ≤ c.toNat ∧ c.toNat ≤ 126
      · rw [jsonEscChar, if_neg h1, if_neg h2, if_neg h3, if_neg h4, if_neg h5,
          if_neg h6, if_neg h7, if_pos h8]
        simp only [List.cons_append, List.nil_append]
        rw [psb_plain f c _ h2 h1 (by omega), hT]
        rfl
      by_cases h9 : c.toNat < 65536
      · rw [jsonEscChar, if_neg h1, if_neg h2, if_neg h3, if_neg h4, if_neg h5,
          if_neg h6, if_neg h7, if_neg h8, if_pos h9]
        have hs := char_toNat_not_surrogate c
        have hno1 : ¬ (55296 ≤ c.toNat ∧ c.toNat ≤ 56319) := by omega
        have hno2 : ¬ (56320 ≤ c.toNat ∧ c.toNat ≤ 57343) := by omega
        have hpe : parseEsc ('u' :: (hex4 c.toNat ++ (jsonEscStr cs ++ rest)))
            = Option.some (c, jsonEscStr cs ++ rest) := by
          rw [parseEsc_u,
            parseEscU_bmp _ c.toNat _ (parseHex4_hex4 c.toNat _ h9) hno1 hno2,
            Char.ofNat_toNat]
        simp only [List.cons_append, List.append_assoc]
        rw [psb_esc _ _ _ _ hpe, hT]
        rfl
      · have hlt := char_toNat_lt c
        have hge : 65536 ≤ c.toNat := by omega
        rw [jsonEscChar, if_neg h1, if_neg h2, if_neg h3, if_neg h4, if_neg h5,
          if_neg h6, if_neg h7, if_neg h8, if_neg h9]
        have harg : 65536 + (55296 + (c.toNat - 65536) / 1024 - 55296) * 1024
            + (56320 + (c.toNat - 65536) % 1024 - 56320) = c.toNat := by omega
        have hpe : parseEsc ('u' :: (hex4 (55296 + (c.toNat - 65536) / 1024)
            ++ ('\\' :: 'u' :: (hex4 (56320 + (c.toNat - 65536) % 1024)
              ++ (jsonEscStr cs ++ rest)))))
            = Option.some (c, jsonEscStr cs ++ rest) := by
          rw [parseEsc_u,
            parseEscU_pair _ _ _ _ _
              (parseHex4_hex4 (55296 + (c.toNat - 65536) / 1024) _ (by omega))
              (by omega)
              (parseHex4_hex4 (56320 + (c.toNat - 65536) % 1024) _ (by omega))
              (by omega),
            harg, Char.ofNat_toNat]
        simp only [List.cons_append, List.append_assoc]
        rw [psb_esc _ _ _ _ hpe, hT]
        rfl
/-- The newline-plus-indent that `json.dump(..., indent=2)` writes before
an element at nesting depth `d`. -/
def nlind (d : Nat) : List Char := '\n' :: List.replicate (2 * d) ' '

mutual

/-- `json.dump(v, f, indent=2)` at nesting depth `d`: CPython's indented
encoder — empty containers inline, non-empty ones with one element per
line, item separator "," and key separator ": ". -/
def jdump : Nat → PyVal → List Char
  | _, PyVal.none => ['n', 'u', 'l', 'l']
  | _, PyVal.bool b =>
    if b then ['t', 'r', 'u', 'e'] else ['f', 'a', 'l', 's', 'e']
  | _, PyVal.int n => intChars n
  | _, PyVal.str s => '"' :: jsonEscStr s.data
  | _, PyVal.list [] => ['[', ']']
  | d, PyVal.list (x :: xs) =>
    '[' :: (nlind (d + 1) ++ (jdump (d + 1) x ++ (jitemsTail (d + 1) xs
      ++ (nlind d ++ [']']))))
  | _, PyVal.dict [] => ['\x7b', '\x7d']
  | d, PyVal.dict (g :: gs) =>
    '\x7b' :: (nlind (d + 1) ++ ('"' :: (jsonEscStr g.1.data
      ++ (':' :: ' ' :: (jdump (d + 1) g.2 ++ (jfieldsTail (d + 1) gs
        ++ (nlind d ++ ['\x7d'])))))))

/-- The items of a non-empty array after the first one. -/
def jitemsTail : Nat → List PyVal → List Char
  | _, [] => []
  | d, y :: ys =>
    ',' :: (nlind d ++ (jdump d y ++ jitemsTail d ys))

/-- The fields of a non-empty object after the first one. -/
def jfieldsTail : Nat → List (String × PyVal) → List Char
  | _, [] => []
  | d, g :: gs =>
    ',' :: (nlind d ++ ('"' :: (jsonEscStr g.1.data
      ++ (':' :: ' ' :: (jdump d g.2 ++ jfieldsTail d gs)))))

end

/-- JSON whitespace. -/
def isWsChar (c : Char) : Bool :=
  c = ' ' || c = '\t' || c = '\n' || c = '\r'

def skipWs : List Char → List Char
  | [] => []
  | c :: rest => if isWsChar c then skipWs rest else c :: rest

/-- A maximal run of decimal digits and its value. -/
def parseNatRun (l : List Char) : Option (Nat × List Char) :=
  let digits := l.takeWhile Char.isDigit
  if digits.isEmpty then Option.none
  else Option.some (valOfDigits digits, l.dropWhile Char.isDigit)

/-- An optionally negated digit run — the integers of JSON (floats are not
modelled; json.dump output for this program's data contains none). -/
def parseIntRun (l : List Char) : Option (Int × List Char) :=
  if l.head? = Option.some '-' then
    (parseNatRun l.tail).map (fun nr => (-(nr.1 : Int), nr.2))
  else (parseNatRun l).map (fun nr => ((nr.1 : Int), nr.2))

mutual

/-- One JSON value, not consuming surrounding whitespace.  The fuel only
drives structural recursion; every recursive call consumes at least one
input character first, so fuel beyond the input length is never
exhausted. -/
def parseVal : Nat → List Char → Option (PyVal × List Char)
  | 0, _ => Option.none
  | _ + 1, [] => Option.none
  | fuel + 1, c :: rest =>
    if c = 'n' then
      if ['u', 'l', 'l'].isPrefixOf rest then
        Option.some (PyVal.none, rest.drop 3)
      else Option.none
    else if c = 't' then
      if ['r', 'u', 'e'].isPrefixOf rest then
        Option.some (PyVal.bool true, rest.drop 3)
      else Option.none
    else if c = 'f' then
      if ['a', 'l', 's', 'e'].isPrefixOf rest then
        Option.some (PyVal.bool false, rest.drop 4)
      else Option.none
    else if c = '"' then
      (parseStringBody fuel rest).map (fun sr =>
        (PyVal.str (String.mk sr.1), sr.2))
    else if c = '[' then
      if (skipWs rest).head? = Option.some ']' then
        Option.some (PyVal.list [], (skipWs rest).tail)
      else
        (parseVal fuel (skipWs rest)).bind (fun xr =>
          (parseItemsTail fuel xr.2).map (fun ysr =>
            (PyVal.list (xr.1 :: ysr.1), ysr.2)))
    else if c = '\x7b' then
      if (skipWs rest).head? = Option.some '\x7d' then
        Option.some (PyVal.dict [], (skipWs rest).tail)
      else
        match skipWs rest with
        | '"' :: r1 =>
          (parseStringBody fuel r1).bind (fun kr =>
            match skipWs kr.2 with
            | ':' :: r2 =>
              (parseVal fuel (skipWs r2)).bind (fun vr =>
                (parseFieldsTail fuel vr.2).map (fun fr =>
                  (PyVal.dict ((String.mk kr.1, vr.1) :: fr.1), fr.2)))
            | _ => Option.none)
        | _ => Option.none
    else if c = '-' || c.isDigit then
      (parseIntRun (c :: rest)).map (fun nr => (PyVal.int nr.1, nr.2))
    else Option.none

/-- The loop after one array item: a comma and another item, or the
closing bracket. -/
def parseItemsTail : Nat → List Char → Option (List PyVal × List Char)
  | 0, _ => Option.none
  | fuel + 1, l =>
    match skipWs l with
    | ',' :: r =>
      (parseVal fuel (skipWs r)).bind (fun xr =>
        (parseItemsTail fuel xr.2).map (fun ysr => (xr.1 :: ysr.1, ysr.2)))
    | ']' :: r => Option.some ([], r)
    | _ => Option.none

/-- The loop after one object field: a comma and another field, or the
closing brace. -/
def parseFieldsTail :
    Nat → List Char → Option (List (String × PyVal) × List Char)
  | 0, _ => Option.none
  | fuel + 1, l =>
    match skipWs l with
    | ',' :: r =>
      (match skipWs r with
        | '"' :: r1 =>
          (parseStringBody fuel r1).bind (fun kr =>
            match skipWs kr.2 with
            | ':' :: r2 =>
              (parseVal fuel (skipWs r2)).bind (fun vr =>
                (parseFieldsTail fuel vr.2).map (fun fr =>
                  ((String.mk kr.1, vr.1) :: fr.1, fr.2)))
            | _ => Option.none)
        | _ => Option.none)
    | '\x7d' :: r => Option.some ([], r)
    | _ => Option.none

end

theorem nlind_length (d : Nat) : (nlind d).length = 2 * d + 1 := by
  simp [nlind]

theorem skipWs_replicate_space (k : Nat) (X : List Char) :
    skipWs (List.replicate k ' ' ++ X) = skipWs X := by
  induction k with
  | zero => simp
  | succ m ih => simpa [skipWs, isWsChar] using ih

theorem skipWs_nlind (d : Nat) (X : List Char) :
    skipWs (nlind d ++ X) = skipWs X := by
  have h := skipWs_replicate_space (2 * d) X
  simp [nlind, skipWs, isWsChar, h]

theorem skipWs_nonWs (c : Char) (X : List Char) (h : isWsChar c = false) :
    skipWs (c :: X) = c :: X := by
  simp [skipWs, h]

theorem digit_ne (c X : Char) (h : c.isDigit = true)
    (hX : X.isDigit = false) : c ≠ X := by
  intro he
  subst he
  rw [h] at hX
  cases hX

theorem isWsChar_false_of_digit (c : Char) (h : c.isDigit = true) :
    isWsChar c = false := by
  rw [isDigit_iff] at h
  simp only [isWsChar, Bool.or_eq_false_iff, decide_eq_false_iff_not]
  refine ⟨⟨⟨?_, ?_⟩, ?_⟩, ?_⟩ <;> intro he <;> subst he <;>
    exact absurd h (by decide)

/-- Every printed value starts with a non-whitespace character that is
neither a closing bracket nor a closing brace. -/
theorem jdump_head (d : Nat) (v : PyVal) :
    ∃ c t, jdump d v = c :: t ∧ isWsChar c = false ∧ c ≠ ']' ∧ c ≠ '\x7d' := by
  cases v with
  | none => exact ⟨'n', _, rfl, by decide, by decide, by decide⟩
  | bool b =>
    cases b
    · exact ⟨'f', _, rfl, by decide, by decide, by decide⟩
    · exact ⟨'t', _, rfl, by decide, by decide, by decide⟩
  | int n =>
    by_cases hneg : n < 0
    · refine ⟨'-', natDigitChars n.natAbs, ?_, by decide, by decide, by decide⟩
      simp [jdump, intChars, hneg]
    · obtain ⟨hval, hne, hall⟩ := natDigitChars_spec n.natAbs
      rcases hh : natDigitChars n.natAbs with _ | ⟨c, t⟩
      · exact absurd hh hne
      · have hc : c.isDigit = true := hall c (by rw [hh]; exact List.mem_cons_self c t)
        refine ⟨c, t, ?_, isWsChar_false_of_digit c hc,
          digit_ne c ']' hc (by decide), digit_ne c '\x7d' hc (by decide)⟩
        simp [jdump, intChars, hneg, hh]
  | str s => exact ⟨'"', _, rfl, by decide, by decide, by decide⟩
  | list xs =>
    cases xs
    · exact ⟨'[', _, rfl, by decide, by decide, by decide⟩
    · exact ⟨'[', _, rfl, by decide, by decide, by decide⟩
  | dict gs =>
    cases gs
    · exact ⟨'\x7b', _, rfl, by decide, by decide, by decide⟩
    · exact ⟨'\x7b', _, rfl, by decide, by decide, by decide⟩

theorem skipWs_jdump (d : Nat) (v : PyVal) (X : List Char) :
    skipWs (jdump d v ++ X) = jdump d v ++ X := by
  obtain ⟨c, t, hct, hws, _, _⟩ := jdump_head d v
  rw [hct]
  exact skipWs_nonWs c (t ++ X) hws

theorem jdump_length_pos (d : Nat) (v : PyVal) : 0 < (jdump d v).length := by
  obtain ⟨c, t, hct, _, _, _⟩ := jdump_head d v
  rw [hct]
  simp

/-- No decimal digit at the head (the guard under which a digit run is
delimited). -/
def headNotDigit : List Char → Prop
  | [] => True
  | c :: _ => c.isDigit = false

theorem takeWhile_digits (dl : List Char) (rest : List Char)
    (hall : ∀ c ∈ dl, c.isDigit = true) (hrest : headNotDigit rest) :
    (dl ++ rest).takeWhile Char.isDigit = dl ∧
    (dl ++ rest).dropWhile Char.isDigit = rest := by
  induction dl with
  | nil =>
    cases rest with
    | nil => simp
    | cons c r =>
      have hc : c.isDigit = false := hrest
      simp [List.takeWhile, List.dropWhile, hc]
  | cons c dl2 ih =>
    have hc : c.isDigit = true := hall c (List.mem_cons_self c dl2)
    obtain ⟨ht, hd⟩ := ih (fun x hx => hall x (List.mem_cons_of_mem c hx))
    simp [List.takeWhile, List.dropWhile, hc, ht, hd]

theorem parseNatRun_digits (n : Nat) (rest : List Char)
    (hrest : headNotDigit rest) :
    parseNatRun (natDigitChars n ++ rest) = Option.some (n, rest) := by
  obtain ⟨hval, hne, hall⟩ := natDigitChars_spec n
  obtain ⟨ht, hd⟩ := takeWhile_digits (natDigitChars n) rest hall hrest
  rw [parseNatRun]
  simp only [ht, hd]
  rw [if_neg (by simpa [List.isEmpty_iff] using hne), hval]

theorem parseIntRun_intChars (n : Int) (rest : List Char)
    (hrest : headNotDigit rest) :
    parseIntRun (intChars n ++ rest) = Option.some (n, rest) := by
  by_cases hneg : n < 0
  · rw [intChars, if_pos hneg]
    simp only [List.cons_append]
    rw [parseIntRun]
    simp only [List.head?_cons, if_true]
    simp only [List.tail_cons]
    rw [parseNatRun_digits n.natAbs rest hrest]
    simp only [Option.map_some']
    congr 2
    omega
  · obtain ⟨hval, hne, hall⟩ := natDigitChars_spec n.natAbs
    obtain ⟨c, t, hh⟩ : ∃ c t, natDigitChars n.natAbs = c :: t := by
      rcases hg : natDigitChars n.natAbs with _ | ⟨c, t⟩
      · exact absurd hg hne
      · exact ⟨c, t, rfl⟩
    have hc : c.isDigit = true :=
      hall c (by rw [hh]; exact List.mem_cons_self c t)
    rw [intChars, if_neg hneg]
    have hmn : ¬ ((natDigitChars n.natAbs ++ rest).head?
        = Option.some '-') := by
      rw [hh]
      simp only [List.cons_append, List.head?_cons, Option.some.injEq]
      exact digit_ne c '-' hc (by decide)
    rw [parseIntRun, if_neg hmn]
    rw [parseNatRun_digits n.natAbs rest hrest]
    simp only [Option.map_some']
    congr 2
    omega

theorem pv_null (f : Nat) (rest : List Char) :
    parseVal (f + 1) ('n' :: 'u' :: 'l' :: 'l' :: rest)
      = Option.some (PyVal.none, rest) := by
  simp [parseVal, List.isPrefixOf]

theorem pv_true (f : Nat) (rest : List Char) :
    parseVal (f + 1) ('t' :: 'r' :: 'u' :: 'e' :: rest)
      = Option.some (PyVal.bool true, rest) := by
  simp [parseVal, List.isPrefixOf]

theorem pv_false (f : Nat) (rest : List Char) :
    parseVal (f + 1) ('f' :: 'a' :: 'l' :: 's' :: 'e' :: rest)
      = Option.some (PyVal.bool false, rest) := by
  simp [parseVal, List.isPrefixOf]

theorem pv_str (f : Nat) (rest r1 s : List Char)
    (h : parseStringBody f rest = Option.some (s, r1)) :
    parseVal (f + 1) ('"' :: rest)
      = Option.some (PyVal.str (String.mk s), r1) := by
  simp only [parseVal]
  rw [if_neg (by decide), if_neg (by decide), if_neg (by decide)]
  simp only [if_true, h, Option.map_some']

theorem pv_int (f : Nat) (c : Char) (rest r1 : List Char) (n : Int)
    (hd : (c = '-' || c.isDigit) = true)
    (h1 : ¬ c = 'n') (h2 : ¬ c = 't') (h3 : ¬ c = 'f') (h4 : ¬ c = '"')
    (h5 : ¬ c = '[') (h6 : ¬ c = '\x7b')
    (hp : parseIntRun (c :: rest) = Option.some (n, r1)) :
    parseVal (f + 1) (c :: rest) = Option.some (PyVal.int n, r1) := by
  simp only [parseVal]
  rw [if_neg h1, if_neg h2, if_neg h3, if_neg h4, if_neg h5, if_neg h6,
    if_pos hd, hp]
  rfl

theorem pv_arr_empty (f : Nat) (rest r : List Char)
    (h : skipWs rest = ']' :: r) :
    parseVal (f + 1) ('[' :: rest) = Option.some (PyVal.list [], r) := by
  simp only [parseVal]
  rw [if_neg (by decide), if_neg (by decide), if_neg (by decide),
    if_neg (by decide)]
  simp only [if_true, h, List.head?_cons, List.tail_cons, if_true]

theorem pv_arr_cons (f : Nat) (rest r1 r2 : List Char) (x : PyVal)
    (ys : List PyVal)
    (hne : ¬ (skipWs rest).head? = Option.some ']')
    (h1 : parseVal f (skipWs rest) = Option.some (x, r1))
    (h2 : parseItemsTail f r1 = Option.some (ys, r2)) :
    parseVal (f + 1) ('[' :: rest)
      = Option.some (PyVal.list (x :: ys), r2) := by
  simp only [parseVal]
  rw [if_neg (by decide), if_neg (by decide), if_neg (by decide),
    if_neg (by decide)]
  simp only [if_true, if_neg hne, h1, Option.some_bind, h2, Option.map_some']

theorem pv_dict_empty (f : Nat) (rest r : List Char)
    (h : skipWs rest = '\x7d' :: r) :
    parseVal (f + 1) ('\x7b' :: rest) = Option.some (PyVal.dict [], r) := by
  simp only [parseVal]
  rw [if_neg (by decide), if_neg (by decide), if_neg (by decide),
    if_neg (by decide), if_neg (by decide)]
  simp only [if_true, h, List.head?_cons, List.tail_cons, if_true]

theorem pv_dict_cons (f : Nat) (rest rq rk r2 rv r3 : List Char)
    (k : List Char) (v : PyVal) (fs : List (String × PyVal))
    (hq : skipWs rest = '"' :: rq)
    (hk : parseStringBody f rq = Option.some (k, rk))
    (hc : skipWs rk = ':' :: r2)
    (hv : parseVal f (skipWs r2) = Option.some (v, rv))
    (hf : parseFieldsTail f rv = Option.some (fs, r3)) :
    parseVal (f + 1) ('\x7b' :: rest)
      = Option.some (PyVal.dict ((String.mk k, v) :: fs), r3) := by
  simp only [parseVal]
  rw [if_neg (by decide), if_neg (by decide), if_neg (by decide),
    if_neg (by decide), if_neg (by decide)]
  simp only [if_true, hq, List.head?_cons, Option.some.injEq,
    if_neg (by decide : ¬ ('"' : Char) = '\x7d'), hk, Option.some_bind,
    hc, hv, hf, Option.map_some']

theorem pit_nil (f : Nat) (dc : Nat) (rest : List Char) :
    parseItemsTail (f + 1) (nlind dc ++ (']' :: rest))
      = Option.some ([], rest) := by
  simp only [parseItemsTail]
  rw [skipWs_nlind, skipWs_nonWs ']' rest (by decide)]
  rfl

theorem pit_cons (f : Nat) (r r1 r2 : List Char) (x : PyVal) (ys : List PyVal)
    (h1 : parseVal f (skipWs r) = Option.some (x, r1))
    (h2 : parseItemsTail f r1 = Option.some (ys, r2)) :
    parseItemsTail (f + 1) (',' :: r) = Option.some (x :: ys, r2) := by
  simp only [parseItemsTail]
  rw [skipWs_nonWs ',' r (by decide)]
  simp only [h1, Option.some_bind, h2, Option.map_some']

theorem pft_nil (f : Nat) (dc : Nat) (rest : List Char) :
    parseFieldsTail (f + 1) (nlind dc ++ ('\x7d' :: rest))
      = Option.some ([], rest) := by
  simp only [parseFieldsTail]
  rw [skipWs_nlind, skipWs_nonWs '\x7d' rest (by decide)]
  rfl

theorem pft_cons (f : Nat) (r rq rk r2 rv r3 : List Char)
    (k : List Char) (v : PyVal) (fs : List (String × PyVal))
    (hq : skipWs r = '"' :: rq)
    (hk : parseStringBody f rq = Option.some (k, rk))
    (hc : skipWs rk = ':' :: r2)
    (hv : parseVal f (skipWs r2) = Option.some (v, rv))
    (hf : parseFieldsTail f rv = Option.some (fs, r3)) :
    parseFieldsTail (f + 1) (',' :: r)
      = Option.some ((String.mk k, v) :: fs, r3) := by
  simp only [parseFieldsTail]
  rw [skipWs_nonWs ',' r (by decide)]
  simp only [hq, hk, Option.some_bind, hc, hv, hf, Option.map_some']

theorem jsonEscChar_length_pos (c : Char) : 1 ≤ (jsonEscChar c).length := by
  unfold jsonEscChar
  repeat' split
  all_goals simp [hex4]

theorem jsonEscStr_length (s : List Char) :
    s.length + 1 ≤ (jsonEscStr s).length := by
  induction s with
  | nil => simp [jsonEscStr]
  | cons c cs ih =>
    have hc := jsonEscChar_length_pos c
    simp only [jsonEscStr, List.length_append, List.length_cons]
    omega

theorem skipWs_space (X : List Char) : skipWs (' ' :: X) = skipWs X := by
  simp [skipWs, isWsChar]

theorem headNotDigit_items (d dc : Nat) (xs : List PyVal)
    (rest : List Char) :
    headNotDigit (jitemsTail d xs ++ (nlind dc ++ (']' :: rest))) := by
  cases xs with
  | nil => simp [jitemsTail, nlind, headNotDigit]
  | cons y ys => simp [jitemsTail, headNotDigit]

theorem headNotDigit_fields (d dc : Nat) (gs : List (String × PyVal))
    (rest : List Char) :
    headNotDigit (jfieldsTail d gs ++ (nlind dc ++ ('\x7d' :: rest))) := by
  cases gs with
  | nil => simp [jfieldsTail, nlind, headNotDigit]
  | cons g gs2 => simp [jfieldsTail, headNotDigit]

/-- Print-parse round trip for values, array tails and object tails, with
fuel bounded below by the input length. -/
theorem parse_jdump_roundtrip (f : Nat) :
    (∀ d v rest, (jdump d v ++ rest).length ≤ f → headNotDigit rest →
      parseVal f (jdump d v ++ rest) = Option.some (v, rest)) ∧
    (∀ d dc xs rest,
      (jitemsTail d xs ++ (nlind dc ++ (']' :: rest))).length ≤ f →
      parseItemsTail f (jitemsTail d xs ++ (nlind dc ++ (']' :: rest)))
        = Option.some (xs, rest)) ∧
    (∀ d dc gs rest,
      (jfieldsTail d gs ++ (nlind dc ++ ('\x7d' :: rest))).length ≤ f →
      parseFieldsTail f (jfieldsTail d gs ++ (nlind dc ++ ('\x7d' :: rest)))
        = Option.some (gs, rest)) := by
  induction f with
  | zero =>
    refine ⟨?_, ?_, ?_⟩
    · intro d v rest hlen _
      have hpos := jdump_length_pos d v
      simp only [List.length_append] at hlen
      omega
    · intro d dc xs rest hlen
      simp only [List.length_append, List.length_cons, nlind_length] at hlen
      omega
    · intro d dc gs rest hlen
      simp only [List.length_append, List.length_cons, nlind_length] at hlen
      omega
  | succ f ih =>
    obtain ⟨ihP, ihQ, ihR⟩ := ih
    refine ⟨?_, ?_, ?_⟩
    · intro d v rest hlen hnd
      cases v with
      | none =>
        simp only [jdump, List.cons_append, List.nil_append]
        exact pv_null f rest
      | bool b =>
        cases b
        · simp only [jdump, Bool.false_eq_true, if_false, List.cons_append,
            List.nil_append]
          exact pv_false f rest
        · simp only [jdump, if_true, List.cons_append, List.nil_append]
          exact pv_true f rest
      | int n =>
        by_cases hneg : n < 0
        · have hic : intChars n = '-' :: natDigitChars n.natAbs := by
            rw [intChars, if_pos hneg]
          have hp : parseIntRun ('-' :: (natDigitChars n.natAbs ++ rest))
              = Option.some (n, rest) := by
            have h0 := parseIntRun_intChars n rest hnd
            rwa [hic, List.cons_append] at h0
          simp only [jdump, hic, List.cons_append]
          exact pv_int f '-' (natDigitChars n.natAbs ++ rest) rest n
            (by decide) (by decide) (by decide) (by decide) (by decide)
            (by decide) (by decide) hp
        · obtain ⟨hval, hne0, hall⟩ := natDigitChars_spec n.natAbs
          obtain ⟨c, t, hh⟩ : ∃ c t, natDigitChars n.natAbs = c :: t := by
            rcases hg : natDigitChars n.natAbs with _ | ⟨c, t⟩
            · exact absurd hg hne0
            · exact ⟨c, t, rfl⟩
          have hc : c.isDigit = true :=
            hall c (by rw [hh]; exact List.mem_cons_self c t)
          have hic : intChars n = c :: t := by
            rw [intChars, if_neg hneg, hh]
          have hp : parseIntRun (c :: (t ++ rest)) = Option.some (n, rest) := by
            have h0 := parseIntRun_intChars n rest hnd
            rwa [hic, List.cons_append] at h0
          simp only [jdump, hic, List.cons_append]
          exact pv_int f c (t ++ rest) rest n (by simp [hc])
            (digit_ne c 'n' hc (by decide)) (digit_ne c 't' hc (by decide))
            (digit_ne c 'f' hc (by decide)) (digit_ne c '"' hc (by decide))
            (digit_ne c '[' hc (by decide)) (digit_ne c '\x7b' hc (by decide))
            hp
      | str s =>
        obtain ⟨sd⟩ := s
        have hesc := jsonEscStr_length sd
        have hlen2 : sd.length < f := by
          simp only [jdump, List.length_append, List.length_cons] at hlen
          omega
        simp only [jdump, List.cons_append]
        exact pv_str f (jsonEscStr sd ++ rest) rest sd
          (parseStringBody_jsonEscStr sd f rest hlen2)
      | list xs =>
        cases xs with
        | nil =>
          simp only [jdump, List.cons_append]
          exact pv_arr_empty f (']' :: rest) rest
            (skipWs_nonWs ']' rest (by decide))
        | cons x xs =>
          have hposx := jdump_length_pos (d + 1) x
          simp only [jdump, List.length_append, List.length_cons,
            nlind_length] at hlen
          have hb1 : (jdump (d + 1) x
              ++ (jitemsTail (d + 1) xs ++ (nlind d ++ (']' :: rest)))).length
              ≤ f := by
            simp only [List.length_append, List.length_cons, nlind_length]
            omega
          have hb2 : (jitemsTail (d + 1) xs
              ++ (nlind d ++ (']' :: rest))).length ≤ f := by
            simp only [List.length_append, List.length_cons, nlind_length]
              at hb1 ⊢
            omega
          have h1 : parseVal f (skipWs (nlind (d + 1) ++ (jdump (d + 1) x
              ++ (jitemsTail (d + 1) xs ++ (nlind d ++ (']' :: rest))))))
              = Option.some
                (x, jitemsTail (d + 1) xs ++ (nlind d ++ (']' :: rest))) := by
            rw [skipWs_nlind, skipWs_jdump]
            exact ihP (d + 1) x _ hb1 (headNotDigit_items (d + 1) d xs rest)
          have h2 : parseItemsTail f
              (jitemsTail (d + 1) xs ++ (nlind d ++ (']' :: rest)))
              = Option.some (xs, rest) := ihQ (d + 1) d xs rest hb2
          have hne : ¬ (skipWs (nlind (d + 1) ++ (jdump (d + 1) x
              ++ (jitemsTail (d + 1) xs ++ (nlind d ++ (']' :: rest)))))).head?
              = Option.some ']' := by
            rw [skipWs_nlind, skipWs_jdump]
            obtain ⟨c, t, hct, _, hne1, _⟩ := jdump_head (d + 1) x
            rw [hct]
            simp only [List.cons_append, List.head?_cons, Option.some.injEq]
            exact hne1
          simp only [jdump, List.cons_append, List.nil_append,
            List.append_assoc]
          exact pv_arr_cons f (nlind (d + 1) ++ (jdump (d + 1) x
              ++ (jitemsTail (d + 1) xs ++ (nlind d ++ (']' :: rest)))))
            (jitemsTail (d + 1) xs ++ (nlind d ++ (']' :: rest))) rest x xs
            hne h1 h2
      | dict gs =>
        cases gs with
        | nil =>
          simp only [jdump, List.cons_append]
          exact pv_dict_empty f ('\x7d' :: rest) rest
            (skipWs_nonWs '\x7d' rest (by decide))
        | cons g gs =>
          obtain ⟨k, v2⟩ := g
          obtain ⟨kd⟩ := k
          have hposv := jdump_length_pos (d + 1) v2
          have hesc := jsonEscStr_length kd
          simp only [jdump, List.length_append, List.length_cons,
            nlind_length] at hlen
          have hklen : kd.length < f := by omega
          have hbv : (jdump (d + 1) v2 ++ (jfieldsTail (d + 1) gs
              ++ (nlind d ++ ('\x7d' :: rest)))).length ≤ f := by
            simp only [List.length_append, List.length_cons, nlind_length]
            omega
          have hbf : (jfieldsTail (d + 1) gs
              ++ (nlind d ++ ('\x7d' :: rest))).length ≤ f := by
            simp only [List.length_append, List.length_cons, nlind_length]
              at hbv ⊢
            omega
          have hq : skipWs (nlind (d + 1) ++ ('"' :: (jsonEscStr kd
              ++ (':' :: ' ' :: (jdump (d + 1) v2 ++ (jfieldsTail (d + 1) gs
                ++ (nlind d ++ ('\x7d' :: rest))))))))
              = '"' :: (jsonEscStr kd ++ (':' :: ' ' :: (jdump (d + 1) v2
                ++ (jfieldsTail (d + 1) gs
                  ++ (nlind d ++ ('\x7d' :: rest)))))) := by
            rw [skipWs_nlind]
            exact skipWs_nonWs '"' _ (by decide)
          have hk : parseStringBody f (jsonEscStr kd
              ++ (':' :: ' ' :: (jdump (d + 1) v2 ++ (jfieldsTail (d + 1) gs
                ++ (nlind d ++ ('\x7d' :: rest))))))
              = Option.some (kd, ':' :: ' ' :: (jdump (d + 1) v2
                ++ (jfieldsTail (d + 1) gs
                  ++ (nlind d ++ ('\x7d' :: rest))))) :=
            parseStringBody_jsonEscStr kd f _ hklen
          have hc : skipWs (':' :: ' ' :: (jdump (d + 1) v2
              ++ (jfieldsTail (d + 1) gs ++ (nlind d ++ ('\x7d' :: rest)))))
              = ':' :: (' ' :: (jdump (d + 1) v2 ++ (jfieldsTail (d + 1) gs
                ++ (nlind d ++ ('\x7d' :: rest))))) :=
            skipWs_nonWs ':' _ (by decide)
          have hv : parseVal f (skipWs (' ' :: (jdump (d + 1) v2
              ++ (jfieldsTail (d + 1) gs ++ (nlind d ++ ('\x7d' :: rest))))))
              = Option.some (v2, jfieldsTail (d + 1) gs
                ++ (nlind d ++ ('\x7d' :: rest))) := by
            rw [skipWs_space, skipWs_jdump]
            exact ihP (d + 1) v2 _ hbv (headNotDigit_fields (d + 1) d gs rest)
          have hf : parseFieldsTail f (jfieldsTail (d + 1) gs
              ++ (nlind d ++ ('\x7d' :: rest)))
              = Option.some (gs, rest) := ihR (d + 1) d gs rest hbf
          simp only [jdump, List.cons_append, List.nil_append,
            List.append_assoc]
          exact pv_dict_cons f _ _ _ _ _ _ kd v2 gs hq hk hc hv hf
    · intro d dc xs rest hlen
      cases xs with
      | nil =>
        simp only [jitemsTail, List.nil_append]
        exact pit_nil f dc rest
      | cons y ys =>
        have hposy := jdump_length_pos d y
        simp only [jitemsTail, List.length_append, List.length_cons,
          nlind_length] at hlen
        have hb1 : (jdump d y ++ (jitemsTail d ys
            ++ (nlind dc ++ (']' :: rest)))).length ≤ f := by
          simp only [List.length_append, List.length_cons, nlind_length]
          omega
        have hb2 : (jitemsTail d ys ++ (nlind dc ++ (']' :: rest))).length
            ≤ f := by
          simp only [List.length_append, List.length_cons, nlind_length]
            at hb1 ⊢
          omega
        have h1 : parseVal f (skipWs (nlind d ++ (jdump d y
            ++ (jitemsTail d ys ++ (nlind dc ++ (']' :: rest))))))
            = Option.some
              (y, jitemsTail d ys ++ (nlind dc ++ (']' :: rest))) := by
          rw [skipWs_nlind, skipWs_jdump]
          exact ihP d y _ hb1 (headNotDigit_items d dc ys rest)
        have h2 : parseItemsTail f
            (jitemsTail d ys ++ (nlind dc ++ (']' :: rest)))
            = Option.some (ys, rest) := ihQ d dc ys rest hb2
        simp only [jitemsTail, List.cons_append, List.nil_append,
          List.append_assoc]
        exact pit_cons f (nlind d ++ (jdump d y ++ (jitemsTail d ys
            ++ (nlind dc ++ (']' :: rest)))))
          (jitemsTail d ys ++ (nlind dc ++ (']' :: rest))) rest y ys h1 h2
    · intro d dc gs rest hlen
      cases gs with
      | nil =>
        simp only [jfieldsTail, List.nil_append]
        exact pft_nil f dc rest
      | cons g gs =>
        obtain ⟨k, v2⟩ := g
        obtain ⟨kd⟩ := k
        have hposv := jdump_length_pos d v2
        have hesc := jsonEscStr_length kd
        simp only [jfieldsTail, List.length_append, List.length_cons,
          nlind_length] at hlen
        have hklen : kd.length < f := by omega
        have hbv : (jdump d v2 ++ (jfieldsTail d gs
            ++ (nlind dc ++ ('\x7d' :: rest)))).length ≤ f := by
          simp only [List.length_append, List.length_cons, nlind_length]
          omega
        have hbf : (jfieldsTail d gs
            ++ (nlind dc ++ ('\x7d' :: rest))).length ≤ f := by
          simp only [List.length_append, List.length_cons, nlind_length]
            at hbv ⊢
          omega
        have hq : skipWs (nlind d ++ ('"' :: (jsonEscStr kd
            ++ (':' :: ' ' :: (jdump d v2 ++ (jfieldsTail d gs
              ++ (nlind dc ++ ('\x7d' :: rest))))))))
            = '"' :: (jsonEscStr kd ++ (':' :: ' ' :: (jdump d v2
              ++ (jfieldsTail d gs ++ (nlind dc ++ ('\x7d' :: rest)))))) := by
          rw [skipWs_nlind]
          exact skipWs_nonWs '"' _ (by decide)
        have hk : parseStringBody f (jsonEscStr kd
            ++ (':' :: ' ' :: (jdump d v2 ++ (jfieldsTail d gs
              ++ (nlind dc ++ ('\x7d' :: rest))))))
            = Option.some (kd, ':' :: ' ' :: (jdump d v2
              ++ (jfieldsTail d gs ++ (nlind dc ++ ('\x7d' :: rest))))) :=
          parseStringBody_jsonEscStr kd f _ hklen
        have hc : skipWs (':' :: ' ' :: (jdump d v2 ++ (jfieldsTail d gs
            ++ (nlind dc ++ ('\x7d' :: rest)))))
            = ':' :: (' ' :: (jdump d v2 ++ (jfieldsTail d gs
              ++ (nlind dc ++ ('\x7d' :: rest))))) :=
          skipWs_nonWs ':' _ (by decide)
        have hv : parseVal f (skipWs (' ' :: (jdump d v2 ++ (jfieldsTail d gs
            ++ (nlind dc ++ ('\x7d' :: rest))))))
            = Option.some (v2, jfieldsTail d gs
              ++ (nlind dc ++ ('\x7d' :: rest))) := by
          rw [skipWs_space, skipWs_jdump]
          exact ihP d v2 _ hbv (headNotDigit_fields d dc gs rest)
        have hf : parseFieldsTail f (jfieldsTail d gs
            ++ (nlind dc ++ ('\x7d' :: rest)))
            = Option.some (gs, rest) := ihR d dc gs rest hbf
        simp only [jfieldsTail, List.cons_append, List.nil_append,
          List.append_assoc]
        exact pft_cons f (nlind d ++ ('"' :: (jsonEscStr kd
            ++ (':' :: ' ' :: (jdump d v2 ++ (jfieldsTail d gs
              ++ (nlind dc ++ ('\x7d' :: rest)))))))) _ _ _ _ _ kd v2 gs
          hq hk hc hv hf

/-- `json.dump(v, f, indent=2, default=str)` as the written file content
(`default=str` is never invoked: every value the store holds serializes
natively). -/
def dumps (v : PyVal) : String := String.mk (jdump 0 v)

/-- `json.load`: skip surrounding whitespace, parse one value, require the
end of the input. -/
def loads (s : String) : Option PyVal :=
  match parseVal (s.data.length + 1) (skipWs s.data) with
  | Option.some vr =>
    if (skipWs vr.2).isEmpty then Option.some vr.1 else Option.none
  | Option.none => Option.none

theorem loads_dumps (v : PyVal) : loads (dumps v) = Option.some v := by
  have hP := (parse_jdump_roundtrip ((jdump 0 v).length + 1)).1
  have h := hP 0 v [] (by simp) trivial
  rw [List.append_nil] at h
  have hskip : skipWs (jdump 0 v) = jdump 0 v := by
    simpa using skipWs_jdump 0 v []
  simp only [loads, dumps, hskip, h]
  simp [skipWs]

/-- No key occurs twice — the invariant Python dicts guarantee for the
dumped store, under which the modelled parser agrees with Python's
json.load (which would keep only the last duplicate of a repeated key). -/
def noDupKeys : List String → Bool
  | [] => true
  | k :: ks => !(ks.contains k) && noDupKeys ks

mutual

/-- Well-formedness of a dumped value: no dict anywhere has duplicate
keys. -/
def wfB : PyVal → Bool
  | PyVal.none => true
  | PyVal.bool _ => true
  | PyVal.int _ => true
  | PyVal.str _ => true
  | PyVal.list xs => wfListB xs
  | PyVal.dict gs => noDupKeys (gs.map Prod.fst) && wfFieldsB gs

def wfListB : List PyVal → Bool
  | [] => true
  | x :: xs => wfB x && wfListB xs

def wfFieldsB : List (String × PyVal) → Bool
  | [] => true
  | g :: gs => wfB g.2 && wfFieldsB gs

end

def optStrJ : Option String → PyVal
  | Option.none => PyVal.none
  | Option.some s => PyVal.str s

def optNatJ : Option Nat → PyVal
  | Option.none => PyVal.none
  | Option.some n => PyVal.int n

/-- A dict of strings (query parameters, filtered headers). -/
def strMapJ (l : List (String × String)) : PyVal :=
  PyVal.dict (l.map (fun kv => (kv.1, PyVal.str kv.2)))

/-- An EndpointSummary as the JSON object the store holds (lines
164-172). -/
def summaryToJVal (s : EndpointSummary) : PyVal :=
  PyVal.dict
    [("method", PyVal.str s.method), ("path", PyVal.str s.path),
      ("query_params", strMapJ s.query_params),
      ("request_body_example", s.request_body_example.getD PyVal.none),
      ("response_status", optNatJ s.response_status),
      ("response_body_example", optStrJ s.response_body_example),
      ("last_seen", PyVal.str s.last_seen)]

/-- A RequestRecord as the JSON object extract_endpoint_info returns
(lines 91-110). -/
def recordToJVal (r : RequestRecord) : PyVal :=
  PyVal.dict
    [("method", PyVal.str r.method), ("path", PyVal.str r.path),
      ("full_url", PyVal.str r.full_url),
      ("query_params", strMapJ r.query_params),
      ("request_headers", strMapJ r.request_headers),
      ("request_body", r.request_body.getD PyVal.none),
      ("response_status", optNatJ r.response_status),
      ("response_headers",
        match r.response_headers with
        | Option.none => PyVal.none
        | Option.some hs => strMapJ hs),
      ("response_body_preview", optStrJ r.response_body_preview),
      ("timestamp", PyVal.str r.timestamp)]

def authToJVal (a : AuthInfo) : PyVal :=
  PyVal.dict
    [("method", optStrJ a.method), ("token_header", optStrJ a.token_header),
      ("sample_token", optStrJ a.sample_token)]

/-- The whole `captured_endpoints` aggregate as the JSON value written by
`AuraInterceptor.save` (lines 30-40 and 184-187). -/
def storeToJVal (st : CaptureStore) : PyVal :=
  PyVal.dict
    [("captured_at", PyVal.str st.captured_at),
      ("base_url", PyVal.str st.base_url),
      ("endpoints", PyVal.dict (st.endpoints.map (fun ce =>
        (ce.1, PyVal.dict (ce.2.map (fun ke =>
          (ke.1, summaryToJVal ke.2))))))),
      ("auth", authToJVal st.auth),
      ("requests", PyVal.list (st.requests.map recordToJVal))]

/-- `AuraInterceptor.save`: the exact file content
`json.dump(captured_endpoints, f, indent=2, default=str)` writes. -/
def save_content (st : CaptureStore) : String := dumps (storeToJVal st)

/-- C7: persisting any Capture Store state, reloading that JSON, and
persisting the reloaded value again unchanged yields byte-identical
content; indeed reloading recovers exactly the persisted value.  The
no-duplicate-keys hypothesis is what Python dicts guarantee for every
reachable store; it is the regime in which the modelled parser is a
faithful model of json.load. -/
theorem save_load_save_roundtrip (st : CaptureStore)
    (h : wfB (storeToJVal st) = true) :
    loads (save_content st) = Option.some (storeToJVal st) ∧
    (loads (save_content st)).map dumps = Option.some (save_content st) := by
  have hl : loads (save_content st) = Option.some (storeToJVal st) :=
    loads_dumps (storeToJVal st)
  exact ⟨hl, by rw [hl]; rfl⟩

/-- Witness for C7 at the freshly initialized store: its persisted JSON is
well-formed and reload-then-persist reproduces it byte for byte. -/
theorem save_load_save_roundtrip_witness :
    wfB (storeToJVal (initial_captured_endpoints "2026-01-01T00:00:00"))
      = true ∧
    (loads (save_content
        (initial_captured_endpoints "2026-01-01T00:00:00"))).map dumps
      = Option.some
          (save_content (initial_captured_endpoints "2026-01-01T00:00:00")) :=
  ⟨by decide,
    (save_load_save_roundtrip (initial_captured_endpoints "2026-01-01T00:00:00")
      (by decide)).2⟩

end AuraAgent
